import Mathlib

/-!
Verification of the consensus-numbering alignment and fragment-consistency
engine of the mdciao repository (`mdciao/nomenclature_utils.py` and
`mdciao/fragments.py`).

Pure Python functions are embedded as Lean functions on lists; fallible
Python code (statements that can raise) is embedded with `Option`/`Except`
return types, one error constructor per distinct raise site.  Helper
functions living in repository modules that are not part of the sources
(`sequence_utils`, `residue_and_atom_utils`, `list_utils`) are modelled
from the specification and are marked as such in their doc comments.
-/

namespace Mdciao

/-! ### Small string helpers

Python's `str.split('.')`, `'.'.join(...)` and `int(...)` are embedded
directly on character lists so that every definition evaluates by kernel
reduction. -/

/-- Python `str.split('.')` on the underlying character list: `"a.b" ↦ [['a'],['b']]`,
`"" ↦ [[]]`, `"a." ↦ [['a'],[]]`. -/
def splitCharsOnDot : List Char → List (List Char)
  | [] => [[]]
  | '.' :: t => [] :: splitCharsOnDot t
  | c :: t =>
    match splitCharsOnDot t with
    | [] => [[c]]
    | g :: gs => (c :: g) :: gs

/-- Python `s.split('.')`. -/
def splitOnDot (s : String) : List String :=
  (splitCharsOnDot s.data).map String.mk

/-- Python `'.'.join(parts)`. -/
def joinDot : List String → String
  | [] => ""
  | [x] => x
  | x :: xs => x ++ "." ++ joinDot xs

/-- Value of a digit string, most significant first. -/
def digitsToNat (ds : List Char) : Nat :=
  ds.foldl (fun acc c => 10 * acc + (c.toNat - '0'.toNat)) 0

/-- Python `str.strip()` on the underlying character list. -/
def trimChars (cs : List Char) : List Char :=
  ((cs.dropWhile Char.isWhitespace).reverse.dropWhile Char.isWhitespace).reverse

/-- Python `int(s)` on a decimal literal: optional surrounding whitespace,
optional single sign, then at least one digit; anything else raises
`ValueError`, embedded as `none`. -/
def pyInt (s : String) : Option Int :=
  match trimChars s.data with
  | [] => none
  | '-' :: ds =>
    if ds ≠ [] ∧ ds.all Char.isDigit then some (-(digitsToNat ds : Int)) else none
  | '+' :: ds =>
    if ds ≠ [] ∧ ds.all Char.isDigit then some ((digitsToNat ds : Int)) else none
  | ds =>
    if ds.all Char.isDigit then some ((digitsToNat ds : Int)) else none

/-! ### `_map2defs` (nomenclature_utils.py, lines 1347-1381)

Regroups a consensus-label list into subdomains keyed by label prefix.
The prefix rule: a label whose first character is numeric (BW grammar,
e.g. `"3.50"`) keeps everything before the first dot; a label whose first
character is alphabetic (CGN grammar, e.g. `"G.H5.1"`) keeps everything
before the last dot.  A label starting with any other character makes the
source raise (`raise Exception(new_key)`), and an empty label raises an
`IndexError` on `key[0]`; both are embedded as `none`. -/

/-- Subdomain prefix of one consensus label, or `none` where the source
raises. -/
def prefixCGNBW (key : String) : Option String :=
  match key.data with
  | [] => none
  | c :: _ =>
    if c.isDigit then some ((splitOnDot key).headD "")
    else if c.isAlpha then some (joinDot (splitOnDot key).dropLast)
    else none

/-- Embeds `defs[new_key].append(ii)` on an insertion-ordered association list
(the source's `defaultdict(list)`). -/
def addToDefs (defs : List (String × List Nat)) (k : String) (i : Nat) :
    List (String × List Nat) :=
  if defs.any (fun p => p.1 = k) then
    defs.map (fun p => if p.1 = k then (p.1, p.2 ++ [i]) else p)
  else defs ++ [(k, [i])]

def map2defsAux : List (Option String) → Nat → List (String × List Nat) →
    Option (List (String × List Nat))
  | [], _, defs => some defs
  | none :: rest, i, defs => map2defsAux rest (i + 1) defs
  | some s :: rest, i, defs =>
    match prefixCGNBW s with
    | none => none
    | some k => map2defsAux rest (i + 1) (addToDefs defs k i)

/-- Embedding of `_map2defs(cons_list)`: subdomain keys in first-appearance order, each
with the ascending list of residue indices carrying a label of that
subdomain. -/
def map2defs (l : List (Option String)) : Option (List (String × List Nat)) :=
  map2defsAux l 0 []

/-! ### `_fill_CGN_gaps` (nomenclature_utils.py, lines 911-978)

For each subdomain run with at least one absent slot inside its index
span, the suggested label at step `i` is
`key + "." + str(offset + (i - first))` where `offset` is
`int(consensus_list[val[0]].split(".")[-1])`; the run is kept only if
every already-present label in the span equals its suggestion, and only
then are the absent slots overwritten with their suggestions. -/

/-- Suggested label `'%s.%u' % (key, offset + step)` of the offset walk. -/
def suggestedLabel (k : String) (offset : Int) (v0 i : Nat) : String :=
  k ++ "." ++ toString (offset + ((i : Int) - (v0 : Int)))

/-- The `consensus_kept` flag after walking the whole span. -/
def runKept (l : List (Option String)) (k : String) (offset : Int)
    (v0 vlast : Nat) : Bool :=
  (List.range' v0 (vlast + 1 - v0)).all fun i =>
    match l.getD i none with
    | none => true
    | some c => suggestedLabel k offset v0 i == c

/-- Write the suggested labels into every slot of the span that holds no
label (`residue_idxs_wo_consensus_labels`); `i` counts the position of the
head of the list being rebuilt. -/
def fillSpan (v0 vlast : Nat) (sugg : Nat → String) :
    Nat → List (Option String) → List (Option String)
  | _, [] => []
  | i, x :: xs =>
    (if v0 ≤ i ∧ i ≤ vlast then
      match x with
      | none => some (sugg i)
      | some y => some y
    else x) :: fillSpan v0 vlast sugg (i + 1) xs

/-- One iteration of the `for key, val in defs.items()` loop.  `none`
embeds the `ValueError` that `int(...)` raises on a non-numeric suffix
(and the unreachable case of an unlabeled run head). -/
def processRun (k : String) (val : List Nat) (l : List (Option String)) :
    Option (List (Option String)) :=
  match val.head? with
  | none => some l
  | some v0 =>
    let vlast := val.getLastD v0
    if val.length = vlast + 1 - v0 then some l
    else
      match l.getD v0 none with
      | none => none
      | some lab0 =>
        match pyInt ((splitOnDot lab0).getLastD "") with
        | none => none
        | some offset =>
          if runKept l k offset v0 vlast then
            some (fillSpan v0 vlast (suggestedLabel k offset v0) 0 l)
          else some l

def processRuns : List (String × List Nat) → List (Option String) →
    Option (List (Option String))
  | [], l => some l
  | (k, v) :: rest, l =>
    match processRun k v l with
    | none => none
    | some l2 => processRuns rest l2

/-- Embedding of `_fill_CGN_gaps(consensus_list, top)`: content of the label list the
call returns (`none` embeds an uncaught exception). -/
def fillCGNGaps (l : List (Option String)) : Option (List (Option String)) :=
  match map2defs l with
  | none => none
  | some defs => processRuns defs l

/-- Embedding of `_fill_BW_gaps(consensus_list, top)` (nomenclature_utils.py, lines
981-1044): its body is the same as `_fill_CGN_gaps` except for verbose
printing, so the returned content coincides. -/
def fillBWGaps (l : List (Option String)) : Option (List (Option String)) :=
  fillCGNGaps l

/-- Observable effect of one call to `_fill_CGN_gaps` under CPython list
aliasing: the function assigns into `consensus_list` in place and ends
with `return consensus_list`, so the value returned and the content of the
caller's list after the call are the same list. -/
def fillCGNGapsCall (l : List (Option String)) :
    Option (List (Option String) × List (Option String)) :=
  (fillCGNGaps l).map fun r => (r, r)

/-! ### Fragment membership helpers

`in_what_fragment` / `in_what_N_fragments` live in `mdciao/list_utils.py`,
which is not among the sources; they are modelled from the specification's
FragmentPartition data model (disjoint residue-index groups). -/

/-- Modelled from the spec: `in_what_fragment(idx, fragments)` — the index
of the (first, hence unique for a disjoint partition) fragment containing
the residue index, absent if no fragment does. -/
def inWhatFragment (idx : Nat) (fragments : List (List Nat)) : Option Nat :=
  (List.range fragments.length).find? fun f => (fragments.getD f []).contains idx

/-- Modelled from the spec: `in_what_N_fragments(cands, fragments)` — the
fragment index of each candidate residue. -/
def inWhatNFragments (cands : List Nat) (fragments : List (List Nat)) :
    List (Option Nat) :=
  cands.map fun c => inWhatFragment c fragments

/-- Embeds `pandas.unique`: the distinct values in first-appearance order. -/
def uniqueFirstAux : List (Option Nat) → List (Option Nat) → List (Option Nat)
  | [], _ => []
  | x :: xs, seen =>
    if x ∈ seen then uniqueFirstAux xs seen
    else x :: uniqueFirstAux xs (x :: seen)

def uniqueFirst (l : List (Option Nat)) : List (Option Nat) :=
  uniqueFirstAux l []

/-! ### `_check_if_subfragment` (fragments.py, lines 503-574)

The interactive `input()` answer, already expanded by `_rangeexpand`
(`list_utils`, not under src/), is supplied as the `answr` parameter; the
`Bool` component of the result records whether the interactive prompt was
issued.  Error constructors, one per raise site: `invalidSelection` is the
`assert all([idx in ifrags for idx in answr])` (the spec's
`InvalidSelectionError`), `emptySelection` is `np.hstack` on an empty
kept list, `noopSelection` is `raise ValueError("Cannot keep these
fragments …")` (the spec's `NoOpSelectionError`). -/

inductive SelErr
  | invalidSelection
  | noopSelection
  | emptySelection
deriving DecidableEq, Repr

/-- Python `ifrags = [_in_what_fragment(idx, fragments) for idx in sub_frag]`. -/
def ifragsOf (subFrag : List Nat) (fragments : List (List Nat)) :
    List (Option Nat) :=
  subFrag.map fun idx => inWhatFragment idx fragments

/-- Python `frag_cands = [f for f in _pandas_unique(ifrags) if f is not None]`. -/
def fragCandsOf (subFrag : List Nat) (fragments : List (List Nat)) : List Nat :=
  (uniqueFirst (ifragsOf subFrag fragments)).filterMap id

/-- Python `tokeep = [idx for ii, idx in enumerate(sub_frag) if ifrags[ii] in answr]`. -/
def tokeepOf (subFrag : List Nat) (fragments : List (List Nat))
    (answr : List Nat) : List Nat :=
  (subFrag.zip (ifragsOf subFrag fragments)).filterMap fun p =>
    match p.2 with
    | some f => if f ∈ answr then some p.1 else none
    | none => none

def checkIfSubfragment (subFrag : List Nat) (fragments : List (List Nat))
    (keepAll : Bool) (answr : List Nat) : Except SelErr (List Nat) × Bool :=
  if 1 < (fragCandsOf subFrag fragments).length ∧ keepAll = false then
    if answr.all
        (fun a => (ifragsOf subFrag fragments).any fun x => decide (x = some a)) then
      if (tokeepOf subFrag fragments answr).length = 0 then
        (.error .emptySelection, true)
      else if (ifragsOf subFrag fragments).length ≤
          (tokeepOf subFrag fragments answr).length then
        (.error .noopSelection, true)
      else (.ok (tokeepOf subFrag fragments answr), true)
    else (.error .invalidSelection, true)
  else (.ok subFrag, false)

/-! ### `per_residue_fragment_picker` (fragments.py, lines 403-501)

The topology is a list of residues; `find_AA`
(`residue_and_atom_utils`, not under src/) is modelled from the spec.
The string that `input()` would return is supplied as the `userInput`
parameter and the `Bool` in the result records whether a prompt was
issued.  Error constructors, one per raise site: `badAnswer` is
`raise ValueError("%s is not a possible answer")`, `assertFailed` the
`assert answer in cand_fragments`, `typeError` the `int(...)` of a
non-scalar (or `None`) selection, `indexError` an out-of-range `abc`
position. -/

structure Residue where
  code : Option Char
  resSeq : Int
deriving DecidableEq, Repr

/-- Modelled from the spec: the AAresSeq key of a residue, one-letter code
(`'X'` for non-standard residues) followed by the sequence number. -/
def shortAAKey (r : Residue) : String :=
  (match r.code with
    | some c => String.singleton c
    | none => "X") ++ toString r.resSeq

/-- Modelled from the spec: `find_AA(top, descriptor)` — all residue
indices whose AAresSeq key equals the descriptor or, for a bare
sequence-number descriptor, whose sequence number equals it. -/
def findAA (top : List Residue) (d : String) : List Nat :=
  (List.range top.length).filter fun i =>
    match top.get? i with
    | some r =>
      shortAAKey r == d ||
        (match pyInt d with
          | some n => decide (r.resSeq = n)
          | none => false)
    | none => false

inductive PickErr
  | badAnswer
  | assertFailed
  | typeError
  | indexError
deriving DecidableEq, Repr

/-- The hardcoded choice alphabet `abc` of fragments.py. -/
def abcOptions : String := "abcdefghijklmnopqrst"

def strFindAux : List Char → List Char → Nat → Option Nat
  | [], pat, i => if pat = [] then some i else none
  | h :: t, pat, i =>
    if pat.isPrefixOf (h :: t) then some i else strFindAux t pat (i + 1)

/-- Python `hay.find(pat)`, with `none` for "not found". -/
def strFind (hay pat : String) : Option Nat :=
  strFindAux hay.data pat.data 0

/-- Python `cands[np.argwhere([answer == ii for ii in cand_fragments]).squeeze()]`:
the candidates at the positions whose fragment equals the answer. -/
def selectWhere (cands : List Nat) (candFrags : List (Option Nat)) (a : Nat) :
    List Nat :=
  (cands.zip candFrags).filterMap fun p =>
    if p.2 = some a then some p.1 else none

/-- Tail of the ambiguous branch: `assert answer in cand_fragments`, then
`residxs.append(int(cands)); fragidxs.append(int(answer))` — `int` of the
selected candidates succeeds only on a scalar (a single selected
candidate). -/
def finishPick (candsNow : List Nat) (candFrags : List (Option Nat)) (a : Nat)
    (prompted : Bool) : Except PickErr ((Option Nat × Option Nat) × Nat × Bool) :=
  if candFrags.any (fun x => decide (x = some a)) then
    match candsNow with
    | [c] => .ok ((some c, some a), a, prompted)
    | _ => .error .typeError
  else .error .assertFailed

/-- The body of the `for key in residue_descriptors` loop for one
descriptor: returns the appended `(residx, fragidx)` pair, the updated
`last_answer` and whether a prompt was issued. -/
def pickOneDescriptor (top : List Residue) (fragments : List (List Nat))
    (defaultFrag : Option Nat) (userInput : String) (lastAnswer : Nat)
    (d : String) : Except PickErr ((Option Nat × Option Nat) × Nat × Bool) :=
  let cands := findAA top d
  let candFrags := inWhatNFragments cands fragments
  match cands with
  | [] => .ok ((none, none), lastAnswer, false)
  | [c] => .ok ((some c, candFrags.headD none), lastAnswer, false)
  | _ =>
    let ap : String × Bool :=
      match defaultFrag with
      | none => (userInput, true)
      | some df => (toString df, false)
    if ap.1.length = 0 then
      finishPick (selectWhere cands candFrags lastAnswer) candFrags lastAnswer ap.2
    else if ap.1.data.all Char.isDigit then
      let a := digitsToNat ap.1.data
      let candsNow :=
        if candFrags.any (fun x => decide (x = some a)) then
          selectWhere cands candFrags a
        else cands
      finishPick candsNow candFrags a ap.2
    else if ap.1.data.all Char.isAlpha ∧ (strFind abcOptions ap.1).isSome then
      match strFind abcOptions ap.1 with
      | some idx =>
        match candFrags.get? idx, cands.get? idx with
        | some fOpt, some c =>
          match fOpt with
          | some f => finishPick [c] candFrags f ap.2
          | none => .error .typeError
        | _, _ => .error .indexError
      | none => .error .badAnswer
    else .error .badAnswer

def pickLoop (top : List Residue) (fragments : List (List Nat))
    (defaultFrag : Option Nat) (userInput : String) :
    List String → Nat → Bool → List (Option Nat) → List (Option Nat) →
    Except PickErr (List (Option Nat) × List (Option Nat) × Bool)
  | [], _, prompted, accR, accF => .ok (accR, accF, prompted)
  | d :: ds, lastA, prompted, accR, accF =>
    match pickOneDescriptor top fragments defaultFrag userInput lastA d with
    | .error e => .error e
    | .ok (rf, lastA2, prompted2) =>
      pickLoop top fragments defaultFrag userInput ds lastA2
        (prompted || prompted2) (accR ++ [rf.1]) (accF ++ [rf.2])

/-- Embedding of `per_residue_fragment_picker(residue_descriptors, fragments, top,
pick_this_fragment_by_default, ...)`: the returned `residxs, fragidxs`
lists together with whether any interactive prompt was issued. -/
def perResidueFragmentPicker (descriptors : List String)
    (fragments : List (List Nat)) (top : List Residue)
    (defaultFrag : Option Nat) (userInput : String) :
    Except PickErr (List (Option Nat) × List (Option Nat) × Bool) :=
  pickLoop top fragments defaultFrag userInput descriptors 0 false [] []

/-! ### `LabelerConsensus.conlab2residx` (nomenclature_utils.py, lines 506-523)

The inner loop over a user-supplied map: builds the label → residue-index
dictionary (an insertion-ordered association list), raising `ValueError`
— the spec's `DuplicateLabelError` — when a label is seen a second
time. -/

inductive DupErr
  | duplicateLabel
deriving DecidableEq, Repr

def conlabLoop : List (Option String) → Nat → List (String × Nat) →
    Except DupErr (List (String × Nat))
  | [], _, acc => .ok acc
  | none :: rest, ii, acc => conlabLoop rest (ii + 1) acc
  | some lab :: rest, ii, acc =>
    if acc.any (fun p => decide (p.1 = lab)) then .error .duplicateLabel
    else conlabLoop rest (ii + 1) (acc ++ [(lab, ii)])

/-- Embeds `conlab2residx` applied to a pre-computed map. -/
def conlab2residx (m : List (Option String)) :
    Except DupErr (List (String × Nat)) :=
  conlabLoop m 0 []

/-! ### `_top2consensus_map` (nomenclature_utils.py, lines 846-909)

The topology is the list of its residues; the reference dictionary is an
insertion-ordered association list.  The pairwise aligner `_my_bioalign`
and the projector `alignment_result_to_list_of_dicts` live in
`sequence_utils`, which is not among the sources: the aligner is taken as
a function parameter and the projector is modelled from the
specification (§4.1–4.2).  Error constructors, one per raise site:
`emptySequenceError` is the aligner's failure on an empty input sequence
(spec §4.1), `keyError` a failed `consensus_dict[AA + str(resSeq)]`
lookup, `indexError` an out-of-range residue or output index,
`typeError` an `int(...)` of a null alignment field, `valueError` the
`int(...)` failure inside `_fill_CGN_gaps`.  `emptyReferenceError`
belongs to the spec's error taxonomy and is produced nowhere. -/

inductive MapErr
  | emptySequenceError
  | emptyReferenceError
  | keyError
  | indexError
  | typeError
  | valueError
deriving DecidableEq, Repr

/-- Modelled from the spec: one-letter code of a residue with `'X'` as the
sentinel for non-standard residues (`_shorten_AA(·, substitute_fail='X')`,
`residue_and_atom_utils`, not under src/). -/
def resChar (r : Residue) : Char := r.code.getD 'X'

/-- Modelled from the spec: `name_from_AA(key)` — the one-letter code of an
AAresSeq key such as `"R131"`. -/
def nameFromAA (key : String) : Char := key.data.headD 'X'

/-- Modelled from the spec: `int_from_AA_code(key)` — the sequence number
of an AAresSeq key such as `"R131"`. -/
def intFromAACode (key : String) : Int :=
  (digitsToNat (key.data.dropWhile fun c => !c.isDigit) : Int)

/-- One alignment column (spec §3, AlignmentRecord): nullable input residue
index, input code, nullable reference sequence number, reference code,
match flag. -/
structure AlnRec where
  idx0 : Option Nat
  aa0 : Char
  idx1 : Option Int
  aa1 : Char
  matched : Bool
deriving DecidableEq, Repr

/-- Modelled from the spec (§4.2): `alignment_result_to_list_of_dicts` —
walk the two aligned strings column by column with two independent
cursors that advance only on a non-gap character on their side; `matched`
is set exactly when both sides are present and the codes agree. -/
def projectAlignment : List Char → List Char → List Nat → List Int → List AlnRec
  | a :: arest, b :: brest, ridx, rnum =>
    { idx0 := if a = '-' then none else ridx.head?
      aa0 := a
      idx1 := if b = '-' then none else rnum.head?
      aa1 := b
      matched := decide (a ≠ '-') && decide (b ≠ '-') && (a == b) } ::
      projectAlignment arest brest (if a = '-' then ridx else ridx.tail)
        (if b = '-' then rnum else rnum.tail)
  | _, _, _, _ => []

def lookupTable (table : List (String × String)) (k : String) : Option String :=
  (table.find? fun p => p.1 == k).map (·.2)

/-- The assignment loop over the match-filtered alignment rows:
`out_list[int(idx)] = consensus_dict[AA + str(resSeq)]`; lookup and index
failures raise. -/
def applyMatches (table : List (String × String)) :
    List AlnRec → List (Option String) → Except MapErr (List (Option String))
  | [], out => .ok out
  | r :: rs, out =>
    match r.idx0, r.idx1 with
    | some i, some s =>
      match lookupTable table (String.singleton r.aa1 ++ toString s) with
      | some lab =>
        if i < out.length then applyMatches table rs (out.set i (some lab))
        else .error .indexError
      | none => .error .keyError
    | _, _ => .error .typeError

/-- Python `restrict_to_residxs` defaulted to all residue indices. -/
def effRestrict (top : List Residue) (restrictOpt : Option (List Nat)) :
    List Nat :=
  match restrictOpt with
  | none => List.range top.length
  | some l => l

/-- First half of `_top2consensus_map`: build the input sequence (from the
residues at the restricted indices) and the reference sequence (from the
table keys, in table order), align, and project.  An empty reference
dictionary yields an empty reference sequence — the source has no
dedicated empty-table check before the alignment call. -/
def alignRecordsOf (alignFn : String → String → Except MapErr (String × String))
    (table : List (String × String)) (top : List Residue)
    (restrictOpt : Option (List Nat)) : Except MapErr (List AlnRec) :=
  match (effRestrict top restrictOpt).mapM (fun i => top.get? i) with
  | none => .error .indexError
  | some rs =>
    match alignFn (String.mk (rs.map resChar))
        (String.mk (table.map fun p => nameFromAA p.1)) with
    | .error e => .error e
    | .ok sAB =>
      .ok (projectAlignment sAB.1.data sAB.2.data (effRestrict top restrictOpt)
        (table.map fun p => intFromAACode p.1))

/-- Embedding of `_top2consensus_map(consensus_dict, top, restrict_to_residxs,
keep_consensus)` (also `LabelerConsensus.top2map`, which wraps it):
`out_list = [None for __ in top.residues]`, then the matched-row
assignment loop, then optionally `_fill_CGN_gaps`. -/
def top2consensusMap (alignFn : String → String → Except MapErr (String × String))
    (table : List (String × String)) (top : List Residue)
    (restrictOpt : Option (List Nat)) (keepConsensus : Bool) :
    Except MapErr (List (Option String)) :=
  match alignRecordsOf alignFn table top restrictOpt with
  | .error e => .error e
  | .ok recs =>
    match applyMatches table (recs.filter fun r => r.matched)
        (List.replicate top.length none) with
    | .error e => .error e
    | .ok out =>
      if keepConsensus then
        match fillCGNGaps out with
        | some out2 => .ok out2
        | none => .error .valueError
      else .ok out

/-- Modelled from the spec (§4.1): a stand-in for the external pairwise
aligner — a global alignment that raises `EmptySequenceError` on an empty
input sequence; this simple instance left-aligns and pads the shorter
sequence with gap characters. -/
def naiveAlign (a b : String) : Except MapErr (String × String) :=
  if a.length = 0 ∨ b.length = 0 then .error .emptySequenceError
  else
    .ok (a ++ String.mk (List.replicate (max a.length b.length - a.length) '-'),
      b ++ String.mk (List.replicate (max a.length b.length - b.length) '-'))

/-- Equality of `Except` results is decidable, so concrete runs can be
checked by evaluation. -/
instance instDecEqExcept {ε α : Type} [DecidableEq ε] [DecidableEq α] :
    DecidableEq (Except ε α)
  | .error e, .error f =>
    if h : e = f then .isTrue (h ▸ rfl)
    else .isFalse fun hc => h (Except.error.inj hc)
  | .ok x, .ok y =>
    if h : x = y then .isTrue (h ▸ rfl)
    else .isFalse fun hc => h (Except.ok.inj hc)
  | .error _, .ok _ => .isFalse fun hc => Except.noConfusion hc
  | .ok _, .error _ => .isFalse fun hc => Except.noConfusion hc

/-! ### Preservation lemmas for the gap filler -/

theorem fillSpan_length (v0 vlast : Nat) (sugg : Nat → String) :
    ∀ (i : Nat) (l : List (Option String)),
      (fillSpan v0 vlast sugg i l).length = l.length := by
  intro i l
  induction l generalizing i with
  | nil => rfl
  | cons x xs ih => simp [fillSpan, ih]

theorem fillSpan_getD_some (v0 vlast : Nat) (sugg : Nat → String) :
    ∀ (l : List (Option String)) (i j : Nat) (s : String),
      l.getD j none = some s →
      (fillSpan v0 vlast sugg i l).getD j none = some s := by
  intro l
  induction l with
  | nil => intro i j s h; simp [List.getD_nil] at h
  | cons x xs ih =>
    intro i j s h
    cases j with
    | zero =>
      rw [List.getD_cons_zero] at h
      subst h
      show ((if v0 ≤ i ∧ i ≤ vlast then _ else some s) :: _).getD 0 none = some s
      split <;> rfl
    | succ j =>
      rw [List.getD_cons_succ] at h
      show (_ :: fillSpan v0 vlast sugg (i + 1) xs).getD (j + 1) none = some s
      rw [List.getD_cons_succ]
      exact ih (i + 1) j s h

theorem processRun_ok (k : String) (val : List Nat)
    (l r : List (Option String)) (h : processRun k val l = some r) :
    r.length = l.length ∧
      ∀ j s, l.getD j none = some s → r.getD j none = some s := by
  unfold processRun at h
  cases hv : val.head? with
  | none => rw [hv] at h; cases h; exact ⟨rfl, fun j s hs => hs⟩
  | some v0 =>
    rw [hv] at h
    simp only at h
    split at h
    · cases h; exact ⟨rfl, fun j s hs => hs⟩
    · split at h
      · cases h
      · split at h
        · cases h
        · split at h
          · cases h
            exact ⟨fillSpan_length _ _ _ _ _,
              fun j s hs => fillSpan_getD_some _ _ _ _ _ _ _ hs⟩
          · cases h; exact ⟨rfl, fun j s hs => hs⟩

theorem processRuns_ok :
    ∀ (defs : List (String × List Nat)) (l r : List (Option String)),
      processRuns defs l = some r →
      r.length = l.length ∧
        ∀ j s, l.getD j none = some s → r.getD j none = some s := by
  intro defs
  induction defs with
  | nil => intro l r h; cases h; exact ⟨rfl, fun j s hs => hs⟩
  | cons kv rest ih =>
    intro l r h
    obtain ⟨k, v⟩ := kv
    unfold processRuns at h
    cases hpr : processRun k v l with
    | none => rw [hpr] at h; cases h
    | some l2 =>
      rw [hpr] at h
      obtain ⟨hlen1, hpres1⟩ := processRun_ok k v l l2 hpr
      obtain ⟨hlen2, hpres2⟩ := ih l2 r h
      exact ⟨hlen2.trans hlen1, fun j s hs => hpres2 j s (hpres1 j s hs)⟩

theorem fillCGNGaps_ok (l r : List (Option String))
    (h : fillCGNGaps l = some r) :
    r.length = l.length ∧
      ∀ j s, l.getD j none = some s → r.getD j none = some s := by
  unfold fillCGNGaps at h
  cases hd : map2defs l with
  | none => rw [hd] at h; cases h
  | some defs => rw [hd] at h; exact processRuns_ok defs l r h

/-! ### Claims about the gap filler -/

/-- Claim C3 (confirmed).  Applied to
`['G.hfs2.1','G.hfs2.2','G.hfs2.3', None, None, 'G.hfs2.6','G.hfs2.7']`,
`_fill_CGN_gaps` returns the list with the two interior absent slots
filled as `'G.hfs2.4'` and `'G.hfs2.5'` by the linear offset walk seeded
from the numeric suffix of the run's first label. -/
theorem claim_C3 :
    fillCGNGaps [some "G.hfs2.1", some "G.hfs2.2", some "G.hfs2.3",
        none, none, some "G.hfs2.6", some "G.hfs2.7"] =
      some [some "G.hfs2.1", some "G.hfs2.2", some "G.hfs2.3",
        some "G.hfs2.4", some "G.hfs2.5", some "G.hfs2.6", some "G.hfs2.7"] := by
  decide

/-- Claim C10 (confirmed).  Whenever `_fill_CGN_gaps` (resp. `_fill_BW_gaps`)
returns, every entry of the input that already held a label is unchanged
in the returned list; only `None` entries may differ. -/
theorem claim_C10 :
    (∀ l r, fillCGNGaps l = some r →
      ∀ i s, l.getD i none = some s → r.getD i none = some s) ∧
    (∀ l r, fillBWGaps l = some r →
      ∀ i s, l.getD i none = some s → r.getD i none = some s) := by
  constructor
  · intro l r h i s hs
    exact (fillCGNGaps_ok l r h).2 i s hs
  · intro l r h i s hs
    exact (fillCGNGaps_ok l r h).2 i s hs

theorem claim_C10_witness :
    ([some "G.hfs2.1", some "G.hfs2.2", some "G.hfs2.3",
        none, none, some "G.hfs2.6", some "G.hfs2.7"] :
      List (Option String)).getD 0 none = some "G.hfs2.1" ∧
    ([some "G.hfs2.1", some "G.hfs2.2", some "G.hfs2.3", some "G.hfs2.4",
        some "G.hfs2.5", some "G.hfs2.6", some "G.hfs2.7"] :
      List (Option String)).getD 0 none = some "G.hfs2.1" :=
  ⟨by decide,
    claim_C10.1
      [some "G.hfs2.1", some "G.hfs2.2", some "G.hfs2.3",
        none, none, some "G.hfs2.6", some "G.hfs2.7"]
      [some "G.hfs2.1", some "G.hfs2.2", some "G.hfs2.3", some "G.hfs2.4",
        some "G.hfs2.5", some "G.hfs2.6", some "G.hfs2.7"]
      (by decide) 0 "G.hfs2.1" (by decide)⟩

/-- Claim C1, counterexample.  The claim states that the gap filler returns a
new list and leaves the caller's list unchanged.  On the list
`['G.H5.25','G.H5.26', None, 'G.H5.28']` the call returns the filled list
and, by CPython aliasing (in-place assignment plus `return consensus_list`),
the caller's list afterwards holds that same filled content — which differs
from the input. -/
theorem claim_C1_counterexample :
    fillCGNGapsCall [some "G.H5.25", some "G.H5.26", none, some "G.H5.28"] =
      some ([some "G.H5.25", some "G.H5.26", some "G.H5.27", some "G.H5.28"],
        [some "G.H5.25", some "G.H5.26", some "G.H5.27", some "G.H5.28"]) ∧
    ([some "G.H5.25", some "G.H5.26", none, some "G.H5.28"] :
        List (Option String)) ≠
      [some "G.H5.25", some "G.H5.26", some "G.H5.27", some "G.H5.28"] := by
  constructor
  · decide
  · decide

/-- Claim C1, amended (the gap-filling operation mutates the caller's list in
place): after a completed call the caller's list and the returned value
are the same list; the mutation preserves the length and every entry that
already held a label, so only absent slots may have been filled. -/
theorem claim_C1_amended (l ret after : List (Option String))
    (h : fillCGNGapsCall l = some (ret, after)) :
    after = ret ∧ after.length = l.length ∧
      ∀ i s, l.getD i none = some s → after.getD i none = some s := by
  unfold fillCGNGapsCall at h
  cases hf : fillCGNGaps l with
  | none => rw [hf] at h; cases h
  | some r =>
    rw [hf] at h
    have h2 : ((r, r) : List (Option String) × List (Option String)) =
        (ret, after) := Option.some.inj h
    have hr : ret = r := (congrArg Prod.fst h2).symm
    have ha : after = r := (congrArg Prod.snd h2).symm
    obtain ⟨hlen, hpres⟩ := fillCGNGaps_ok l r hf
    subst hr; subst ha
    exact ⟨rfl, hlen, hpres⟩

/-- Claim C4, counterexample.  The claim says that in a subdomain run with a
disagreeing existing label, *every* absent entry inside that run stays
absent.  Here the run `("A", [0,6])` spans indices 0..6, its offset walk is
seeded with `1` (suffix of `"A.1"` at the run's first index), and the
existing label `"A.9"` at index 6 disagrees with the suggestion `"A.7"`.
Index 3 is absent in the input and lies inside that run's span, yet the
overlapping run `("B", [2,4])` validates and fills it with `"B.6"`. -/
theorem claim_C4_counterexample :
    map2defs [some "A.1", none, some "B.5", none, some "B.7", none,
        some "A.9"] = some [("A", [0, 6]), ("B", [2, 4])] ∧
    pyInt ((splitOnDot "A.1").getLastD "") = some 1 ∧
    ([some "A.1", none, some "B.5", none, some "B.7", none, some "A.9"] :
        List (Option String)).getD 6 none = some "A.9" ∧
    suggestedLabel "A" 1 0 6 = "A.7" ∧ ("A.9" : String) ≠ "A.7" ∧
    ([some "A.1", none, some "B.5", none, some "B.7", none, some "A.9"] :
        List (Option String)).getD 3 none = none ∧
    fillCGNGaps [some "A.1", none, some "B.5", none, some "B.7", none,
        some "A.9"] =
      some [some "A.1", none, some "B.5", some "B.6", some "B.7", none,
        some "A.9"] := by
  refine ⟨by decide, by decide, by decide, by decide, by decide, by decide,
    by decide⟩

/-- Claim C4, amended.  A run whose offset walk meets a disagreeing existing
label fills nothing itself; in particular, when the input's non-absent
labels form a single subdomain run and some existing label in its span
disagrees with the suggested label, the whole call returns the input
unchanged.  (An absent entry inside such a run can still be filled by a
*different*, overlapping subdomain run that validates, as the
counterexample shows.) -/
theorem claim_C4_amended (l : List (Option String)) (k : String)
    (val : List Nat) (v0 : Nat)
    (hdefs : map2defs l = some [(k, val)])
    (hv0 : val.head? = some v0)
    (lab0 : String) (hlab0 : l.getD v0 none = some lab0)
    (offset : Int) (hoff : pyInt ((splitOnDot lab0).getLastD "") = some offset)
    (i : Nat) (hi1 : v0 ≤ i) (hi2 : i ≤ val.getLastD v0)
    (c : String) (hc : l.getD i none = some c)
    (hne : suggestedLabel k offset v0 i ≠ c) :
    fillCGNGaps l = some l := by
  have hkept : runKept l k offset v0 (val.getLastD v0) = false := by
    apply Bool.eq_false_iff.mpr
    intro htrue
    have hmem : i ∈ List.range' v0 (val.getLastD v0 + 1 - v0) := by
      rw [List.mem_range'_1]
      refine ⟨hi1, ?_⟩
      rw [Nat.add_sub_cancel' (Nat.le_succ_of_le (hi1.trans hi2))]
      exact Nat.lt_succ_of_le hi2
    have hp := List.all_eq_true.mp htrue i hmem
    rw [hc] at hp
    simp only at hp
    exact hne (by simpa using hp)
  have hrun : processRun k val l = some l := by
    unfold processRun
    rw [hv0]
    show (if val.length = val.getLastD v0 + 1 - v0 then some l else _) = some l
    split
    · rfl
    · simp only [hlab0, hoff, hkept]
      simp
  unfold fillCGNGaps
  rw [hdefs]
  unfold processRuns
  rw [hrun]
  rfl

theorem claim_C4_witness :
    fillCGNGaps [some "G.H5.1", none, some "G.H5.9"] =
      some [some "G.H5.1", none, some "G.H5.9"] :=
  claim_C4_amended [some "G.H5.1", none, some "G.H5.9"] "G.H5" [0, 2] 0
    (by decide) (by decide) "G.H5.1" (by decide) 1 (by decide)
    2 (by decide) (by decide) "G.H5.9" (by decide) (by decide)

theorem claim_C1_witness :
    ([some "1.50"] : List (Option String)) = [some "1.50"] ∧
    ([some "1.50"] : List (Option String)).length = 1 :=
  ⟨(claim_C1_amended [some "1.50"] [some "1.50"] [some "1.50"] (by decide)).1,
    (claim_C1_amended [some "1.50"] [some "1.50"] [some "1.50"] (by decide)).2.1⟩

/-! ### Claims about the fragment reconciler -/

theorem uniqueFirstAux_const_of_mem (c : Option Nat) :
    ∀ (l seen : List (Option Nat)), (∀ x ∈ l, x = c) → c ∈ seen →
      uniqueFirstAux l seen = [] := by
  intro l
  induction l with
  | nil => intro seen hall hseen; rfl
  | cons x xs ih =>
    intro seen hall hseen
    have hx : x = c := hall x (List.mem_cons_self x xs)
    subst hx
    unfold uniqueFirstAux
    rw [if_pos hseen]
    exact ih seen (fun y hy => hall y (List.mem_cons_of_mem _ hy)) hseen

theorem uniqueFirstAux_const (c : Option Nat) :
    ∀ (l seen : List (Option Nat)), (∀ x ∈ l, x = c) →
      uniqueFirstAux l seen = [] ∨ uniqueFirstAux l seen = [c] := by
  intro l
  induction l with
  | nil => intro seen hall; exact Or.inl rfl
  | cons x xs ih =>
    intro seen hall
    have hx : x = c := hall x (List.mem_cons_self x xs)
    rw [hx]
    unfold uniqueFirstAux
    by_cases hseen : c ∈ seen
    · rw [if_pos hseen]
      exact ih seen fun y hy => hall y (List.mem_cons_of_mem _ hy)
    · rw [if_neg hseen]
      right
      rw [uniqueFirstAux_const_of_mem c xs (c :: seen)
        (fun y hy => hall y (List.mem_cons_of_mem _ hy))
        (List.mem_cons_self c seen)]

/-- Claim C5 (confirmed).  A definition whose residues all lie inside one
fragment is returned unchanged by `_check_if_subfragment`, with no
interactive prompt; and with `keep_all` set any definition is returned
unchanged without prompting. -/
theorem claim_C5 (subFrag : List Nat) (fragments : List (List Nat))
    (answr : List Nat) (f0 : Nat)
    (hone : ∀ i ∈ subFrag, inWhatFragment i fragments = some f0) :
    checkIfSubfragment subFrag fragments false answr = (.ok subFrag, false) ∧
    ∀ (sf : List Nat) (fr : List (List Nat)) (an : List Nat),
      checkIfSubfragment sf fr true an = (.ok sf, false) := by
  constructor
  · have hall : ∀ x ∈ ifragsOf subFrag fragments, x = some f0 := by
      intro x hx
      obtain ⟨i, hi, hxi⟩ := List.mem_map.mp hx
      rw [← hxi]
      exact hone i hi
    have hcands : (fragCandsOf subFrag fragments).length ≤ 1 := by
      unfold fragCandsOf uniqueFirst
      rcases uniqueFirstAux_const (some f0) (ifragsOf subFrag fragments) [] hall
        with h | h
      · rw [h]; exact Nat.zero_le 1
      · rw [h]; simp
    unfold checkIfSubfragment
    rw [if_neg]
    intro ⟨h1, _⟩
    exact absurd hcands (by omega)
  · intro sf fr an
    unfold checkIfSubfragment
    rw [if_neg]
    intro ⟨_, h2⟩
    cases h2

theorem claim_C5_witness :
    checkIfSubfragment [1, 2] [[0, 1, 2, 3]] false [] = (.ok [1, 2], false) ∧
    checkIfSubfragment [0, 3] [[0, 1], [2, 3]] true [] = (.ok [0, 3], false) :=
  ⟨(claim_C5 [1, 2] [[0, 1, 2, 3]] [] 0 (by decide)).1,
    (claim_C5 [1, 2] [[0, 1, 2, 3]] [] 0 (by decide)).2 [0, 3] [[0, 1], [2, 3]] []⟩

/-- Claim C6, counterexample.  The claim says a selection keeping at least
as many residues as were originally *touched* (lying inside some
candidate fragment) raises `NoOpSelectionError`.  Definition
`[0,1,2,3,4]` against fragments `[[0,1],[2,3]]` touches 4 residues
(residue 4 lies in no fragment); the selection `[0,1]` keeps those same 4
residues, yet the source compares against the definition's total size
(`len(ifrags) = 5`) and returns the reduced definition instead of
raising. -/
theorem claim_C6_counterexample :
    1 < (fragCandsOf [0, 1, 2, 3, 4] [[0, 1], [2, 3]]).length ∧
    ((ifragsOf [0, 1, 2, 3, 4] [[0, 1], [2, 3]]).filterMap id).length = 4 ∧
    (tokeepOf [0, 1, 2, 3, 4] [[0, 1], [2, 3]] [0, 1]).length = 4 ∧
    checkIfSubfragment [0, 1, 2, 3, 4] [[0, 1], [2, 3]] false [0, 1] =
      (.ok [0, 1, 2, 3], true) := by
  refine ⟨by decide, by decide, by decide, by decide⟩

/-- Claim C6, amended.  In the clash path, a selection containing a fragment
ID not among the per-residue fragment assignments (equivalently, the
candidate fragments) raises `InvalidSelectionError`; and a (valid,
non-empty) selection keeping at least as many residues as the
*definition's total residue count* — not the touched-residue count —
raises `NoOpSelectionError`; in both cases no reduced definition is
returned. -/
theorem claim_C6_amended (subFrag : List Nat) (fragments : List (List Nat))
    (answr : List Nat)
    (hclash : 1 < (fragCandsOf subFrag fragments).length) :
    ((∃ a ∈ answr, ∀ x ∈ ifragsOf subFrag fragments, x ≠ some a) →
      checkIfSubfragment subFrag fragments false answr =
        (.error .invalidSelection, true)) ∧
    ((∀ a ∈ answr, some a ∈ ifragsOf subFrag fragments) →
      tokeepOf subFrag fragments answr ≠ [] →
      (ifragsOf subFrag fragments).length ≤
        (tokeepOf subFrag fragments answr).length →
      checkIfSubfragment subFrag fragments false answr =
        (.error .noopSelection, true)) := by
  constructor
  · intro ⟨a, ha, hnot⟩
    unfold checkIfSubfragment
    rw [if_pos ⟨hclash, rfl⟩, if_neg]
    intro hall
    obtain ⟨x, hx, hxa⟩ := List.any_eq_true.mp (List.all_eq_true.mp hall a ha)
    exact hnot x hx (of_decide_eq_true hxa)
  · intro hvalid hne hle
    unfold checkIfSubfragment
    rw [if_pos ⟨hclash, rfl⟩, if_pos, if_neg, if_pos hle]
    · intro h0
      exact hne (List.length_eq_zero.mp h0)
    · apply List.all_eq_true.mpr
      intro a ha
      apply List.any_eq_true.mpr
      exact ⟨some a, hvalid a ha, by simp⟩

theorem claim_C6_witness :
    checkIfSubfragment [0, 1] [[0], [1]] false [5] =
      (.error .invalidSelection, true) ∧
    checkIfSubfragment [0, 1] [[0], [1]] false [0, 1] =
      (.error .noopSelection, true) :=
  ⟨(claim_C6_amended [0, 1] [[0], [1]] [5] (by decide)).1 (by decide),
    (claim_C6_amended [0, 1] [[0], [1]] [0, 1] (by decide)).2 (by decide)
      (by decide) (by decide)⟩

/-! ### Claims about the label-to-residue inversion -/

theorem conlabLoop_mem_error (lab : String) :
    ∀ (rest : List (Option String)) (ii : Nat) (acc : List (String × Nat)),
      some lab ∈ rest → acc.any (fun p => decide (p.1 = lab)) = true →
      conlabLoop rest ii acc = .error .duplicateLabel := by
  intro rest
  induction rest with
  | nil => intro ii acc hmem _; simp at hmem
  | cons x r ih =>
    intro ii acc hmem hany
    cases x with
    | none =>
      have hmem2 : some lab ∈ r := by
        rcases List.mem_cons.mp hmem with h | h
        · cases h
        · exact h
      exact ih (ii + 1) acc hmem2 hany
    | some t =>
      simp only [conlabLoop]
      by_cases ht : acc.any (fun p => decide (p.1 = t)) = true
      · rw [if_pos ht]
      · rw [if_neg ht]
        have htl : t ≠ lab := fun he => ht (he ▸ hany)
        have hmem2 : some lab ∈ r := by
          rcases List.mem_cons.mp hmem with h | h
          · exact absurd (Option.some.inj h).symm htl
          · exact h
        have hany2 : (acc ++ [(t, ii)]).any (fun p => decide (p.1 = lab)) = true := by
          rw [List.any_append, hany]
          rfl
        exact ih (ii + 1) (acc ++ [(t, ii)]) hmem2 hany2

theorem conlabLoop_dup_error (s : String) :
    ∀ (rest : List (Option String)) (i j ii : Nat) (acc : List (String × Nat)),
      i < j → rest.get? i = some (some s) → rest.get? j = some (some s) →
      conlabLoop rest ii acc = .error .duplicateLabel := by
  intro rest
  induction rest with
  | nil => intro i j ii acc _ hi _; simp at hi
  | cons x r ih =>
    intro i j ii acc hij hi hj
    cases j with
    | zero => exact absurd hij (Nat.not_lt_zero i)
    | succ j2 =>
      have hjr : r.get? j2 = some (some s) := hj
      cases i with
      | zero =>
        have hx : x = some s := by
          have : some x = some (some s) := hi
          exact Option.some.inj this
        subst hx
        simp only [conlabLoop]
        by_cases hany : acc.any (fun p => decide (p.1 = s)) = true
        · rw [if_pos hany]
        · rw [if_neg hany]
          apply conlabLoop_mem_error s r (ii + 1) (acc ++ [(s, ii)])
          · exact List.getElem?_mem (List.get?_eq_getElem? r j2 ▸ hjr)
          · rw [List.any_append]
            simp
      | succ i2 =>
        have hir : r.get? i2 = some (some s) := hi
        cases x with
        | none => exact ih i2 j2 (ii + 1) acc (Nat.lt_of_succ_lt_succ hij) hir hjr
        | some t =>
          simp only [conlabLoop]
          by_cases hany : acc.any (fun p => decide (p.1 = t)) = true
          · rw [if_pos hany]
          · rw [if_neg hany]
            exact ih i2 j2 (ii + 1) (acc ++ [(t, ii)])
              (Nat.lt_of_succ_lt_succ hij) hir hjr

/-- Claim C8 (confirmed).  Whenever the map given to `conlab2residx` assigns
the same non-absent label to two distinct residue indices, the inversion
raises (the spec's `DuplicateLabelError`); it never returns a
dictionary. -/
theorem claim_C8 (m : List (Option String)) (s : String) (i j : Nat)
    (hij : i < j) (hi : m.get? i = some (some s))
    (hj : m.get? j = some (some s)) :
    conlab2residx m = .error .duplicateLabel :=
  conlabLoop_dup_error s m i j 0 [] hij hi hj

theorem claim_C8_witness :
    conlab2residx [some "3.50", none, some "3.50"] = .error .duplicateLabel :=
  claim_C8 [some "3.50", none, some "3.50"] "3.50" 0 2 (by decide) (by decide)
    (by decide)

/-! ### Claim about the ambiguous-residue picker -/

/-- Claim C9 (confirmed).  For a descriptor matching exactly the residues 6
(in fragment 0) and 19 (in fragment 1), `per_residue_fragment_picker`
with `pick_this_fragment_by_default=1` returns residue 19 in fragment 1
without issuing any interactive prompt (the result is independent of any
would-be user input). -/
theorem claim_C9 (top : List Residue) (fragments : List (List Nat))
    (d userInput : String)
    (hfind : findAA top d = [6, 19])
    (hf6 : inWhatFragment 6 fragments = some 0)
    (hf19 : inWhatFragment 19 fragments = some 1) :
    perResidueFragmentPicker [d] fragments top (some 1) userInput =
      .ok ([some 19], [some 1], false) := by
  unfold perResidueFragmentPicker pickLoop pickOneDescriptor inWhatNFragments
  rw [hfind]
  simp only [List.map_cons, List.map_nil, hf6, hf19]
  rfl

theorem claim_C9_witness :
    perResidueFragmentPicker ["K7"]
      [[0, 1, 2, 3, 4, 5, 6, 7, 8, 9],
        [10, 11, 12, 13, 14, 15, 16, 17, 18, 19]]
      [⟨some 'A', 100⟩, ⟨some 'A', 101⟩, ⟨some 'A', 102⟩, ⟨some 'A', 103⟩,
        ⟨some 'A', 104⟩, ⟨some 'A', 105⟩, ⟨some 'K', 7⟩, ⟨some 'A', 107⟩,
        ⟨some 'A', 108⟩, ⟨some 'A', 109⟩, ⟨some 'A', 110⟩, ⟨some 'A', 111⟩,
        ⟨some 'A', 112⟩, ⟨some 'A', 113⟩, ⟨some 'A', 114⟩, ⟨some 'A', 115⟩,
        ⟨some 'A', 116⟩, ⟨some 'A', 117⟩, ⟨some 'A', 118⟩, ⟨some 'K', 7⟩]
      (some 1) "" = .ok ([some 19], [some 1], false) :=
  claim_C9
    [⟨some 'A', 100⟩, ⟨some 'A', 101⟩, ⟨some 'A', 102⟩, ⟨some 'A', 103⟩,
      ⟨some 'A', 104⟩, ⟨some 'A', 105⟩, ⟨some 'K', 7⟩, ⟨some 'A', 107⟩,
      ⟨some 'A', 108⟩, ⟨some 'A', 109⟩, ⟨some 'A', 110⟩, ⟨some 'A', 111⟩,
      ⟨some 'A', 112⟩, ⟨some 'A', 113⟩, ⟨some 'A', 114⟩, ⟨some 'A', 115⟩,
      ⟨some 'A', 116⟩, ⟨some 'A', 117⟩, ⟨some 'A', 118⟩, ⟨some 'K', 7⟩]
    [[0, 1, 2, 3, 4, 5, 6, 7, 8, 9], [10, 11, 12, 13, 14, 15, 16, 17, 18, 19]]
    "K7" "" (by decide) (by decide) (by decide)

/-! ### Claims about the consensus mapper -/

theorem getD_replicate_none (n i : Nat) :
    (List.replicate n (none : Option String)).getD i none = none := by
  induction n generalizing i with
  | zero => rfl
  | succ n ih =>
    cases i with
    | zero => rfl
    | succ i => exact ih i

theorem getD_set_ne {α : Type} (l : List α) (i j : Nat) (v d : α)
    (h : i ≠ j) : (l.set i v).getD j d = l.getD j d := by
  rw [List.getD_eq_getElem?_getD, List.getD_eq_getElem?_getD,
    List.getElem?_set_ne h]

theorem applyMatches_ok (table : List (String × String)) :
    ∀ (recs : List AlnRec) (out0 out : List (Option String)),
      applyMatches table recs out0 = .ok out →
      out.length = out0.length ∧
      ∀ i, out.getD i none ≠ out0.getD i none →
        ∃ r ∈ recs, r.idx0 = some i := by
  intro recs
  induction recs with
  | nil =>
    intro out0 out h
    cases h
    exact ⟨rfl, fun i hi => absurd rfl hi⟩
  | cons r rs ih =>
    intro out0 out h
    simp only [applyMatches] at h
    split at h
    · rename_i i0 s1 h0 h1
      split at h
      · rename_i lab hlk
        split at h
        · obtain ⟨hlen, hdiff⟩ := ih (out0.set i0 (some lab)) out h
          refine ⟨hlen.trans (List.length_set out0 i0 (some lab)), ?_⟩
          intro i hi
          by_cases hii : i = i0
          · exact ⟨r, List.mem_cons_self r rs, hii ▸ h0⟩
          · have hsame : (out0.set i0 (some lab)).getD i none =
                out0.getD i none :=
              getD_set_ne out0 i0 i (some lab) none fun he => hii he.symm
            obtain ⟨r2, hr2, hr2i⟩ := hdiff i (by rw [hsame]; exact hi)
            exact ⟨r2, List.mem_cons_of_mem r hr2, hr2i⟩
        · cases h
      · cases h
    · cases h

theorem projectAlignment_idx0_mem :
    ∀ (la lb : List Char) (ridx : List Nat) (rnum : List Int) (r : AlnRec),
      r ∈ projectAlignment la lb ridx rnum → ∀ i, r.idx0 = some i →
      i ∈ ridx := by
  intro la
  induction la with
  | nil =>
    intro lb ridx rnum r hr
    simp [projectAlignment] at hr
  | cons a arest ih =>
    intro lb ridx rnum r hr i hi
    cases lb with
    | nil => simp [projectAlignment] at hr
    | cons b brest =>
      simp only [projectAlignment] at hr
      rcases List.mem_cons.mp hr with h | h
      · subst h
        simp only at hi
        by_cases ha : a = '-'
        · rw [if_pos ha] at hi; cases hi
        · rw [if_neg ha] at hi
          cases ridx with
          | nil => cases hi
          | cons x xs => exact (Option.some.inj hi) ▸ List.mem_cons_self x xs
      · have hmem := ih brest _ _ r h i hi
        by_cases ha : a = '-'
        · rw [if_pos ha] at hmem; exact hmem
        · rw [if_neg ha] at hmem
          exact List.mem_of_mem_tail hmem

theorem alignRecordsOf_idx0_mem
    (alignFn : String → String → Except MapErr (String × String))
    (table : List (String × String)) (top : List Residue)
    (restrictOpt : Option (List Nat)) (recs : List AlnRec)
    (ha : alignRecordsOf alignFn table top restrictOpt = .ok recs) :
    ∀ r ∈ recs, ∀ i, r.idx0 = some i → i ∈ effRestrict top restrictOpt := by
  unfold alignRecordsOf at ha
  split at ha
  · cases ha
  · rename_i rs hm
    split at ha
    · cases ha
    · rename_i sAB hal
      have hrecs : projectAlignment sAB.1.data sAB.2.data
          (effRestrict top restrictOpt)
          (table.map fun p => intFromAACode p.1) = recs := Except.ok.inj ha
      intro r hr i hi
      rw [← hrecs] at hr
      exact projectAlignment_idx0_mem sAB.1.data sAB.2.data _ _ r hr i hi

/-- Claim C2 (confirmed).  Whenever `_top2consensus_map` (without gap
filling) returns, the returned list has exactly one entry per topology
residue; residues outside `restrict_to_residxs` hold `None`; and a
residue holds a label only if some alignment record matched it (so
unmatched residues hold `None` as well). -/
theorem claim_C2
    (alignFn : String → String → Except MapErr (String × String))
    (table : List (String × String)) (top : List Residue)
    (restrictOpt : Option (List Nat)) (out : List (Option String))
    (hout : top2consensusMap alignFn table top restrictOpt false = .ok out) :
    out.length = top.length ∧
    (∀ i, i ∉ effRestrict top restrictOpt → out.getD i none = none) ∧
    (∀ i, out.getD i none ≠ none →
      ∃ recs, alignRecordsOf alignFn table top restrictOpt = .ok recs ∧
        ∃ r ∈ recs, r.matched = true ∧ r.idx0 = some i) := by
  unfold top2consensusMap at hout
  split at hout
  · cases hout
  · rename_i recs ha
    split at hout
    · cases hout
    · rename_i out2 happ
      have hoo : out2 = out := Except.ok.inj hout
      subst hoo
      obtain ⟨hlen, hdiff⟩ := applyMatches_ok table _ _ _ happ
      have hchanged : ∀ i, out2.getD i none ≠ none →
          ∃ r ∈ recs.filter (fun r => r.matched), r.idx0 = some i := by
        intro i hne
        exact hdiff i (by rw [getD_replicate_none]; exact hne)
      refine ⟨hlen.trans (List.length_replicate top.length none), ?_, ?_⟩
      · intro i hnr
        by_contra hne
        obtain ⟨r, hr, hri⟩ := hchanged i hne
        exact hnr (alignRecordsOf_idx0_mem alignFn table top restrictOpt recs
          ha r (List.mem_of_mem_filter hr) i hri)
      · intro i hne
        obtain ⟨r, hr, hri⟩ := hchanged i hne
        exact ⟨recs, ha, r, List.mem_of_mem_filter hr,
          List.of_mem_filter hr, hri⟩

theorem claim_C2_witness :
    ([some "3.50", none] : List (Option String)).length = 2 ∧
    ([some "3.50", none] : List (Option String)).getD 1 none = none :=
  ⟨(claim_C2 naiveAlign [("R5", "3.50")] [⟨some 'R', 5⟩, ⟨some 'K', 9⟩]
      (some [0]) [some "3.50", none] (by decide)).1,
    (claim_C2 naiveAlign [("R5", "3.50")] [⟨some 'R', 5⟩, ⟨some 'K', 9⟩]
      (some [0]) [some "3.50", none] (by decide)).2.1 1 (by decide)⟩

/-- Claim C7, counterexample.  With an empty reference table the source
raises no `EmptyReferenceError`: the reference sequence comes out empty
and the aligner's empty-sequence failure (spec §4.1,
`EmptySequenceError`) is what surfaces. -/
theorem claim_C7_counterexample :
    top2consensusMap naiveAlign [] [⟨some 'A', 1⟩] none false =
      .error .emptySequenceError ∧
    top2consensusMap naiveAlign [] [⟨some 'A', 1⟩] none false ≠
      .error .emptyReferenceError := by
  refine ⟨by decide, by decide⟩

/-- Claim C7, amended.  Calling the consensus mapper with an empty reference
table fails before producing any label list, but with the aligner's
`EmptySequenceError` (the reference sequence built from the empty table
is empty): there is no dedicated `EmptyReferenceError` check in
`_top2consensus_map`. -/
theorem claim_C7_amended
    (alignFn : String → String → Except MapErr (String × String))
    (hempty : ∀ a, alignFn a "" = .error .emptySequenceError)
    (top : List Residue) (restrictOpt : Option (List Nat)) (keep : Bool)
    (rs : List Residue)
    (hres : (effRestrict top restrictOpt).mapM (fun i => top.get? i) = some rs) :
    top2consensusMap alignFn [] top restrictOpt keep =
      .error .emptySequenceError := by
  have hempty2 : ∀ a, alignFn a (String.mk []) = .error .emptySequenceError :=
    hempty
  unfold top2consensusMap alignRecordsOf
  simp only [hres, List.map_nil, hempty2]

theorem claim_C7_witness :
    top2consensusMap naiveAlign [] [⟨some 'K', 2⟩] none true =
      .error .emptySequenceError :=
  claim_C7_amended naiveAlign
    (fun a => by unfold naiveAlign; exact if_pos (Or.inr rfl))
    [⟨some 'K', 2⟩] none true [⟨some 'K', 2⟩] (by decide)

end Mdciao
